import Mathlib

set_option autoImplicit false
set_option maxRecDepth 8000

/- Verification development for the habit-tracker single-file React component.

   Modelling conventions (shallow embedding of the TypeScript source):
   * Calendar dates.  The app keys day records by the ISO string
     `Date.toISOString().slice(0, 10)`, and `prevDate` steps one calendar day
     backward via `setDate(getDate() - 1)`.  ISO day keys are in bijection with
     day numbers and one backward step decrements the day number, so a date is
     modelled as its day number (an integer) and `prevDate d` as `d - 1`.
   * JavaScript objects (`byDate`, `checks`) are modelled as association
     lists.  A JS object cannot hold the same key twice; theorems nevertheless
     quantify over arbitrary lists and state any no-duplicate hypothesis
     explicitly where the count depends on it.
   * The `Map` built by `getCountsForDate` is modelled as an association list
     with the replace-or-append semantics of `Map.set`, and `get(k) || 0` as a
     defaulted lookup.
   * Arithmetic is exact over ℕ / ℚ.  The floating-point expression
     `Math.round((done / itemCount) * 100)` is modelled by its exact rational
     value; for every value reachable from this data model the IEEE double
     computation rounds to the same integer.
-/

/-- One checkable sub-habit of the static catalog (source: entries of
`HABITS[i].items`). -/
structure HabitItem where
  id : String
  label : String
deriving DecidableEq

/-- One category of the static catalog (source: entries of `HABITS`). -/
structure Habit where
  id : String
  label : String
  icon : String
  items : List HabitItem
  dailyGoal : Nat
deriving DecidableEq

/-- First element of the `HABITS` literal. -/
def smokingHabit : Habit :=
  { id := "smoking", label := "Smoking", icon := "🚭",
    items := [
      { id := "smoke_free", label := "Smoke-free today" },
      { id := "mindful_breaks", label := "Mindful breaks only (no cigarettes)" }],
    dailyGoal := 1 }

/-- Second element of the `HABITS` literal. -/
def eatingHabit : Habit :=
  { id := "eating", label := "Eating", icon := "🥗",
    items := [
      { id := "home_cooked", label := "Home-cooked meal" },
      { id := "fruits_veggies", label := "5+ servings fruits/veggies" },
      { id := "no_sugar", label := "No sugary snacks" }],
    dailyGoal := 2 }

/-- Third element of the `HABITS` literal. -/
def exerciseHabit : Habit :=
  { id := "exercise", label := "Exercise", icon := "💪",
    items := [
      { id := "workout_30", label := "Workout 30+ min" },
      { id := "walk_8k", label := "Walk 8k steps" },
      { id := "stretch_10", label := "Stretch 10 min" }],
    dailyGoal := 2 }

/-- The static habit catalog (source constant `HABITS`). -/
def HABITS : List Habit := [smokingHabit, eatingHabit, exerciseHabit]

/-- Source constant `POINTS_PER_ITEM`. -/
def POINTS_PER_ITEM : Nat := 10

/-- One badge tier (source: entries of `BADGES`). -/
structure Badge where
  id : String
  label : String
  threshold : Nat
  emoji : String
deriving DecidableEq

/-- The badge table (source constant `BADGES`). -/
def BADGES : List Badge :=
  [ { id := "bronze_3", label := "Bronze: 3-day streak", threshold := 3, emoji := "🥉" },
    { id := "silver_7", label := "Silver: 7-day streak", threshold := 7, emoji := "🥈" },
    { id := "gold_14", label := "Gold: 14-day streak", threshold := 14, emoji := "🥇" },
    { id := "diamond_30", label := "Diamond: 30-day streak", threshold := 30, emoji := "💎" } ]

/-- The empty string (named so that string literals never directly follow an
identifier). -/
def noStr : String := ""

/-- JavaScript `String.prototype.split` with separator `"."`, char by char:
the accumulator holds the current segment reversed. -/
def splitDotAux : List Char → List Char → List String
  | [], acc => [String.mk acc.reverse]
  | c :: rest, acc =>
    if c = '.' then String.mk acc.reverse :: splitDotAux rest []
    else splitDotAux rest (c :: acc)

/-- `key.split(".")` from the source (`split` with a one-character separator). -/
def splitDot (k : String) : List String :=
  splitDotAux k.toList []

/-- The `habitId` position of the destructuring `[habitId, itemId] = key.split(".")`. -/
def firstComp (k : String) : String :=
  (splitDot k).headD noStr

/-- The `itemId` position of the destructuring; a missing second segment is
`undefined` in JS, which `Array.prototype.join` renders as the empty string. -/
def secondComp (k : String) : String :=
  ((splitDot k).drop 1).headD noStr

/-- Source `interface DayRecord { date: string; checks: DailyState }`, with the
date as its day number and `checks` as an association list. -/
structure DayRecord where
  date : Int
  checks : List (String × Bool)
deriving DecidableEq

/-- Source `interface StoreShape { byDate: Record<string, DayRecord> }`. -/
structure StoreShape where
  byDate : List (Int × DayRecord)
deriving DecidableEq

/-- JS object property read `obj[key]` on the `byDate` object. -/
def objGet {β : Type} : List (Int × β) → Int → Option β
  | [], _ => none
  | e :: rest, d => if e.1 = d then some e.2 else objGet rest d

/-- Result of `getCountsForDate`: the `perHabit` map and the `total` counter. -/
structure Counts where
  perHabit : List (String × Nat)
  total : Nat
deriving DecidableEq

/-- `perHabit.get(habitId) || 0`: defaulted `Map` lookup. -/
def mapGetD : List (String × Nat) → String → Nat
  | [], _ => 0
  | e :: rest, k => if e.1 = k then e.2 else mapGetD rest k

/-- `perHabit.set(key, value)`: replace the binding if the key is present,
append it otherwise. -/
def mapSet : List (String × Nat) → String → Nat → List (String × Nat)
  | [], k, v => [(k, v)]
  | e :: rest, k, v => if e.1 = k then (k, v) :: rest else e :: mapSet rest k v

/-- Body of the `Object.entries(rec.checks).forEach` loop of `getCountsForDate`:
skip falsy values, bump the habit's counter and the total otherwise. -/
def countsStep (acc : Counts) (kv : String × Bool) : Counts :=
  if kv.2 then
    { perHabit := mapSet acc.perHabit (firstComp kv.1) (mapGetD acc.perHabit (firstComp kv.1) + 1),
      total := acc.total + 1 }
  else acc

/-- Source `getCountsForDate`: a missing record yields empty counts, otherwise
fold the loop body over the record's entries. -/
def getCountsForDate (s : StoreShape) (dateKey : Int) : Counts :=
  match objGet s.byDate dateKey with
  | none => { perHabit := [], total := 0 }
  | some r => r.checks.foldl countsStep { perHabit := [], total := 0 }

/-- `perHabit.get(habitId) || 0` for a given store and date: the `done` value
used by `progressForHabit` and `overallGoalMet`. -/
def doneFor (s : StoreShape) (dateKey : Int) (habitId : String) : Nat :=
  mapGetD (getCountsForDate s dateKey).perHabit habitId

/-- Result record of `progressForHabit`. -/
structure Progress where
  done : Nat
  total : Nat
  pct : Nat
  goalMet : Bool
deriving DecidableEq

/-- Source `progressForHabit`.  `Math.min(100, Math.round((done / c) * 100))`
is computed exactly: rounding half up, `round(100 * done / c)` equals
`(200 * done + c) / (2 * c)` in natural division (see `floor_cast_div_nat`
below).  The source's non-null assertion on `HABITS.find` becomes `Option`. -/
def progressForHabit (s : StoreShape) (dateKey : Int) (habitId : String) : Option Progress :=
  match HABITS.find? (fun h => h.id == habitId) with
  | none => none
  | some cfg =>
    let done := doneFor s dateKey habitId
    some { done := done,
           total := cfg.items.length,
           pct := min 100 ((200 * done + cfg.items.length) / (2 * cfg.items.length)),
           goalMet := decide (cfg.dailyGoal ≤ done) }

/-- Source `totalPointsToday`. -/
def totalPointsToday (s : StoreShape) (dateKey : Int) : Nat :=
  (getCountsForDate s dateKey).total * POINTS_PER_ITEM

/-- Source `overallGoalMet`: every habit's defaulted count reaches its goal. -/
def overallGoalMet (s : StoreShape) (dateKey : Int) : Bool :=
  HABITS.all (fun h => decide (h.dailyGoal ≤ doneFor s dateKey h.id))

/-- The `while (true)` walk of `overallStreak`, rendered total with explicit
fuel; `streakFuel_stable` below shows any fuel above the store size computes
the loop's value. -/
def streakFuel (s : StoreShape) : Nat → Int → Nat
  | 0, _ => 0
  | fuel + 1, d => if overallGoalMet s d then streakFuel s fuel (d - 1) + 1 else 0

/-- Source `overallStreak`: the backward walk from the selected date.  One more
unit of fuel than the store has records always suffices (`overallStreak_total_spec`). -/
def overallStreak (s : StoreShape) (d : Int) : Nat :=
  streakFuel s (s.byDate.length + 1) d

/-- Source `earnedBadges`: ids of badges whose threshold the streak reaches. -/
def earnedBadges (streak : Nat) : List String :=
  (BADGES.filter (fun b => decide (b.threshold ≤ streak))).map (fun b => b.id)

/-- The per-date clear button: `delete next[selectedDate]` on a copy of `byDate`. -/
def clearDate (s : StoreShape) (d : Int) : StoreShape :=
  { byDate := s.byDate.filter (fun e => decide (e.1 ≠ d)) }

/-- The reset button: wipe the store only when the confirmation prompt was
accepted, else leave it untouched (`if (!confirm(...)) return`). -/
def resetAll (s : StoreShape) (confirmed : Bool) : StoreShape :=
  if confirmed then { byDate := [] } else s

/-- The composite key template `habitId.itemId` used throughout the source. -/
def subKey (h : Habit) (it : HabitItem) : String :=
  h.id ++ "." ++ it.id

/-- All composite keys of the static catalog. -/
def catalogKeys : List String :=
  HABITS.flatMap (fun h => h.items.map (fun it => subKey h it))

/-- The habit ids of the static catalog. -/
def habitIds : List String :=
  HABITS.map (fun h => h.id)

/-- JS `key in day.checks`: key membership in the object, whatever the value. -/
def hasKey (checks : List (String × Bool)) (k : String) : Bool :=
  checks.any (fun kv => kv.1 == k)

/-- The CSV header line of `exportCSV`. -/
def csvHeader : String := "date,habitId,itemId,checked"

/-- String rendering of a day number (stands for the ISO date string). -/
def dateStr (d : Int) : String := toString d

/-- `"0"`, the synthesized/unchecked marker of `exportCSV`. -/
def zeroStr : String := "0"

/-- `"1"`, the checked marker of `exportCSV`. -/
def oneStr : String := "1"

/-- `checked ? "1" : "0"` from `exportCSV`. -/
def checkedStr (b : Bool) : String :=
  if b then oneStr else zeroStr

/-- `[a, b, c, d].join(",")` for one CSV data row. -/
def csvRowOf (dateS habitS itemS checkS : String) : String :=
  dateS ++ "," ++ habitS ++ "," ++ itemS ++ "," ++ checkS

/-- The rows `exportCSV` pushes for one day: one row per `checks` entry, then a
synthesized `0` row for every catalog key the day's object lacks. -/
def dayRows (day : DayRecord) : List String :=
  (day.checks.map (fun kv =>
      csvRowOf (dateStr day.date) (firstComp kv.1) (secondComp kv.1) (checkedStr kv.2)))
    ++ HABITS.flatMap (fun h => h.items.filterMap (fun it =>
        if hasKey day.checks (subKey h it) then none
        else some (csvRowOf (dateStr day.date) h.id it.id zeroStr)))

/-- Source `exportCSV`, as the list of lines of the produced file: the header
followed by the per-day rows in store order. -/
def csvRows (byDate : List (Int × DayRecord)) : List String :=
  csvHeader :: byDate.flatMap (fun e => dayRows e.2)

/-- Keys that name a catalog sub-habit. -/
def isCatalogKey (k : String) : Bool :=
  decide (k ∈ catalogKeys)

/-- Modelled from the spec: "the same store with the stale keys removed", a
stale key being one that does not name a catalog sub-habit.  This is the
comparator the stale-key claim is judged against, not a source function. -/
def removeStaleKeys (s : StoreShape) : StoreShape :=
  { byDate := s.byDate.map (fun e =>
      (e.1, { date := e.2.date, checks := e.2.checks.filter (fun kv => isCatalogKey kv.1) })) }

/-- Keys whose habit component names a catalog habit. -/
def hasCatalogHabitComp (k : String) : Bool :=
  decide (firstComp k ∈ habitIds)

/-- Comparator for the amended stale-key claim: drop exactly the entries whose
habit component is not a catalog habit id. -/
def removeNonHabitKeys (s : StoreShape) : StoreShape :=
  { byDate := s.byDate.map (fun e =>
      (e.1, { date := e.2.date, checks := e.2.checks.filter (fun kv => hasCatalogHabitComp kv.1) })) }

/-- The slice of a JavaScript value that `loadStore` inspects. -/
inductive JsValue where
  | vundefined : JsValue
  | vnull : JsValue
  | vbool : Bool → JsValue
  | vnum : Int → JsValue
  | vstr : String → JsValue
  | vobj : List (String × JsValue) → JsValue

/-- JavaScript truthiness (NaN, modelled nowhere else, is omitted). -/
def truthy : JsValue → Bool
  | .vundefined => false
  | .vnull => false
  | .vbool b => b
  | .vnum n => decide (n ≠ 0)
  | .vstr s => decide (s ≠ noStr)
  | .vobj _ => true

/-- The optional-chained property read `parsed?.byDate`: `undefined` on
nullish or primitive values and on objects lacking the field. -/
def jsGetField (v : JsValue) (k : String) : JsValue :=
  match v with
  | .vobj fields =>
    match fields.find? (fun f => f.1 == k) with
    | some f => f.2
    | none => .vundefined
  | _ => .vundefined

/-- The field name the loader probes. -/
def byDateField : String := "byDate"

/-- The literal `{ byDate: {} }` the loader falls back to. -/
def emptyStoreJs : JsValue :=
  .vobj [(byDateField, .vobj [])]

/-- Source `loadStore`.  The two external effects are inputs: `rawRead` is the
`localStorage.getItem` outcome (`error` = the read threw, caught by the
`try`), `parse` is `JSON.parse` (`error` = it threw).  An empty string is
falsy, so `if (!raw)` also catches it.  The value is returned untyped, as in
the source, which casts `parsed` to `StoreShape` without validation. -/
def loadStore (rawRead : Except Unit (Option String))
    (parse : String → Except Unit JsValue) : JsValue :=
  match rawRead with
  | .error _ => emptyStoreJs
  | .ok none => emptyStoreJs
  | .ok (some raw) =>
    if raw = noStr then emptyStoreJs
    else
      match parse raw with
      | .error _ => emptyStoreJs
      | .ok parsed =>
        if truthy (jsGetField parsed byDateField) then parsed else emptyStoreJs

/-- The worked example of spec §8: five checked items on one day. -/
def exampleRec : DayRecord :=
  { date := 0, checks := [
      ("smoking.smoke_free", true), ("eating.home_cooked", true), ("eating.no_sugar", true),
      ("exercise.workout_30", true), ("exercise.walk_8k", true)] }

/-- One-day store around `exampleRec`, used by concrete witnesses. -/
def exampleStore : StoreShape := { byDate := [(0, exampleRec)] }

/-- A day record holding a single checked stale key. -/
def staleRec : DayRecord := { date := 0, checks := [("zzz.zzz", true)] }

/-- One-day store whose only entry is a checked stale key. -/
def staleStore : StoreShape := { byDate := [(0, staleRec)] }

/- ------------------------------------------------------------------
   Association-list map lemmas (the `Map` of `getCountsForDate`).
   ------------------------------------------------------------------ -/

theorem mapGetD_mapSet_self (m : List (String × Nat)) (k : String) (v : Nat) :
    mapGetD (mapSet m k v) k = v := by
  induction m with
  | nil => simp [mapSet, mapGetD]
  | cons e rest ih =>
    by_cases h : e.1 = k
    · simp [mapSet, h, mapGetD]
    · simp [mapSet, h, mapGetD, ih]

theorem mapGetD_mapSet_ne (m : List (String × Nat)) (k k2 : String) (v : Nat)
    (hne : k2 ≠ k) : mapGetD (mapSet m k v) k2 = mapGetD m k2 := by
  induction m with
  | nil => simp [mapSet, mapGetD, Ne.symm hne]
  | cons e rest ih =>
    by_cases h : e.1 = k
    · subst h
      simp [mapSet, mapGetD, Ne.symm hne]
    · simp only [mapSet, if_neg h]
      by_cases h2 : e.1 = k2
      · simp [mapGetD, h2]
      · simp [mapGetD, h2, ih]

theorem foldl_countsStep_perHabit (l : List (String × Bool)) (acc : Counts) (hid : String) :
    mapGetD (l.foldl countsStep acc).perHabit hid
      = mapGetD acc.perHabit hid
        + (l.filter (fun kv => kv.2 && (firstComp kv.1 == hid))).length := by
  induction l generalizing acc with
  | nil => simp
  | cons kv rest ih =>
    rcases kv with ⟨k, v⟩
    cases v with
    | false =>
      simp only [List.foldl_cons, List.filter_cons]
      simpa [countsStep] using ih acc
    | true =>
      simp only [List.foldl_cons, List.filter_cons]
      rw [ih]
      by_cases hk : firstComp k = hid
      · simp [countsStep, hk, mapGetD_mapSet_self]
        omega
      · simp [countsStep, hk, mapGetD_mapSet_ne _ _ _ _ (fun h => hk h.symm)]

theorem foldl_countsStep_total (l : List (String × Bool)) (acc : Counts) :
    (l.foldl countsStep acc).total = acc.total + (l.filter (fun kv => kv.2)).length := by
  induction l generalizing acc with
  | nil => simp
  | cons kv rest ih =>
    rcases kv with ⟨k, v⟩
    cases v with
    | false =>
      simp only [List.foldl_cons, List.filter_cons]
      simpa [countsStep] using ih acc
    | true =>
      simp only [List.foldl_cons, List.filter_cons]
      rw [ih]
      simp [countsStep]
      omega

theorem getCountsForDate_of_none (s : StoreShape) (d : Int)
    (hg : objGet s.byDate d = none) :
    getCountsForDate s d = { perHabit := [], total := 0 } := by
  unfold getCountsForDate
  rw [hg]

theorem getCountsForDate_of_some (s : StoreShape) (d : Int) (r : DayRecord)
    (hg : objGet s.byDate d = some r) :
    getCountsForDate s d = r.checks.foldl countsStep { perHabit := [], total := 0 } := by
  unfold getCountsForDate
  rw [hg]

theorem doneFor_of_none (s : StoreShape) (d : Int) (hid : String)
    (hg : objGet s.byDate d = none) : doneFor s d hid = 0 := by
  unfold doneFor
  rw [getCountsForDate_of_none s d hg]
  rfl

theorem doneFor_of_some (s : StoreShape) (d : Int) (hid : String) (r : DayRecord)
    (hg : objGet s.byDate d = some r) :
    doneFor s d hid = (r.checks.filter (fun kv => kv.2 && (firstComp kv.1 == hid))).length := by
  unfold doneFor
  rw [getCountsForDate_of_some s d r hg]
  simpa [mapGetD] using foldl_countsStep_perHabit r.checks { perHabit := [], total := 0 } hid

theorem total_of_none (s : StoreShape) (d : Int)
    (hg : objGet s.byDate d = none) : (getCountsForDate s d).total = 0 := by
  rw [getCountsForDate_of_none s d hg]

theorem total_of_some (s : StoreShape) (d : Int) (r : DayRecord)
    (hg : objGet s.byDate d = some r) :
    (getCountsForDate s d).total = (r.checks.filter (fun kv => kv.2)).length := by
  rw [getCountsForDate_of_some s d r hg]
  simpa using foldl_countsStep_total r.checks { perHabit := [], total := 0 }

/- ------------------------------------------------------------------
   Object-lookup lemmas.
   ------------------------------------------------------------------ -/

theorem objGet_mem_keys {β : Type} (l : List (Int × β)) (d : Int) (b : β)
    (h : objGet l d = some b) : d ∈ l.map Prod.fst := by
  induction l with
  | nil => simp [objGet] at h
  | cons e rest ih =>
    by_cases he : e.1 = d
    · simp [he]
    · simp only [objGet, if_neg he] at h
      simp [ih h]

theorem objGet_map_value {β γ : Type} (l : List (Int × β)) (f : β → γ) (d : Int) :
    objGet (l.map (fun e => (e.1, f e.2))) d = (objGet l d).map f := by
  induction l with
  | nil => rfl
  | cons e rest ih =>
    by_cases he : e.1 = d
    · simp [objGet, he]
    · simp [objGet, he, ih]

theorem objGet_filter_ne_self {β : Type} (l : List (Int × β)) (d : Int) :
    objGet (l.filter (fun e => decide (e.1 ≠ d))) d = none := by
  induction l with
  | nil => rfl
  | cons e rest ih =>
    by_cases he : e.1 = d
    · simpa [List.filter_cons, he] using ih
    · simpa [List.filter_cons, he, objGet] using ih

theorem objGet_filter_ne_other {β : Type} (l : List (Int × β)) (d d2 : Int)
    (hne : d2 ≠ d) : objGet (l.filter (fun e => decide (e.1 ≠ d))) d2 = objGet l d2 := by
  induction l with
  | nil => rfl
  | cons e rest ih =>
    by_cases he : e.1 = d
    · subst he
      simpa [List.filter_cons, objGet, Ne.symm hne] using ih
    · by_cases he2 : e.1 = d2
      · subst he2
        simp [List.filter_cons, he, objGet]
      · simpa [List.filter_cons, he, objGet, he2] using ih

/- ------------------------------------------------------------------
   Progress calculator: C2 (goalMet) and C3 (percent).
   ------------------------------------------------------------------ -/

theorem find_habit_of_mem (h : Habit) (hmem : h ∈ HABITS) :
    HABITS.find? (fun x => x.id == h.id) = some h := by
  fin_cases hmem <;> decide

theorem progressForHabit_eq (s : StoreShape) (d : Int) (h : Habit)
    (hfind : HABITS.find? (fun x => x.id == h.id) = some h) :
    progressForHabit s d h.id =
      some { done := doneFor s d h.id,
             total := h.items.length,
             pct := min 100 ((200 * doneFor s d h.id + h.items.length) / (2 * h.items.length)),
             goalMet := decide (h.dailyGoal ≤ doneFor s d h.id) } := by
  unfold progressForHabit
  rw [hfind]

theorem floor_cast_div_nat (a b : Nat) (hb : 0 < b) :
    ⌊((a : ℚ)) / ((b : ℚ))⌋ = ((a / b : Nat) : Int) := by
  have hb' : (0 : ℚ) < (b : ℚ) := by exact_mod_cast hb
  rw [Int.floor_eq_iff]
  constructor
  · rw [le_div_iff₀ hb']
    exact_mod_cast Nat.div_mul_le_self a b
  · rw [div_lt_iff₀ hb']
    have h1 : a < (a / b + 1) * b := by
      have h2 := Nat.div_add_mod a b
      have h3 := Nat.mod_lt a hb
      calc a = b * (a / b) + a % b := h2.symm
        _ < b * (a / b) + b := by omega
        _ = (a / b + 1) * b := by ring
    exact_mod_cast h1

theorem jsRound_eq_round (dn c : Nat) (hc : 0 < c) :
    (((200 * dn + c) / (2 * c) : Nat) : Int) = round ((100 * (dn : ℚ)) / ((c : ℚ))) := by
  have hc' : (0 : ℚ) < (c : ℚ) := by exact_mod_cast hc
  have key : (100 * (dn : ℚ)) / ((c : ℚ)) + 1 / 2
      = (((200 * dn + c : Nat) : ℚ)) / (((2 * c : Nat) : ℚ)) := by
    push_cast
    field_simp
    ring
  rw [round_eq, key, floor_cast_div_nat (200 * dn + c) (2 * c) (by omega)]

/-- C2: for every store, date, and habit in the catalog, the progress
calculator's `goalMet` is true exactly when the habit's checked-item count for
that date reaches its `dailyGoal`; equality in particular yields `true`. -/
theorem progressForHabit_goalMet_iff (s : StoreShape) (d : Int) (h : Habit)
    (hmem : h ∈ HABITS) :
    ∃ p, progressForHabit s d h.id = some p ∧ p.done = doneFor s d h.id ∧
      (p.goalMet = true ↔ h.dailyGoal ≤ doneFor s d h.id) ∧
      (doneFor s d h.id = h.dailyGoal → p.goalMet = true) := by
  refine ⟨_, progressForHabit_eq s d h (find_habit_of_mem h hmem), rfl, ?_, ?_⟩
  · simp
  · intro he
    simp [he]

/-- Witness for C2: the spec §8 example store, smoking habit, with the
membership hypothesis discharged concretely. -/
theorem progressForHabit_goalMet_iff_witness :
    smokingHabit ∈ HABITS ∧
      (∃ p, progressForHabit exampleStore 0 smokingHabit.id = some p ∧
        p.done = doneFor exampleStore 0 smokingHabit.id ∧
        (p.goalMet = true ↔ smokingHabit.dailyGoal ≤ doneFor exampleStore 0 smokingHabit.id) ∧
        (doneFor exampleStore 0 smokingHabit.id = smokingHabit.dailyGoal → p.goalMet = true)) :=
  ⟨by decide, progressForHabit_goalMet_iff exampleStore 0 smokingHabit (by decide)⟩

/-- C3: for every store, date, and habit in the catalog, the per-habit percent
is `round(100 * done / itemCount)` clamped above at `100`, lies in `[0, 100]`
(it is a natural number), and an unrecorded date yields `done = 0` and
`percent = 0`. -/
theorem progressForHabit_pct_spec (s : StoreShape) (d : Int) (h : Habit)
    (hmem : h ∈ HABITS) :
    ∃ p, progressForHabit s d h.id = some p ∧
      ((p.pct : Int) = min 100 (round ((100 * (p.done : ℚ)) / ((h.items.length : ℚ))))) ∧
      p.pct ≤ 100 ∧
      (objGet s.byDate d = none → p.done = 0 ∧ p.pct = 0) := by
  have hlen : 0 < h.items.length := by fin_cases hmem <;> decide
  refine ⟨_, progressForHabit_eq s d h (find_habit_of_mem h hmem), ?_, ?_, ?_⟩
  · show ((min 100 ((200 * doneFor s d h.id + h.items.length) / (2 * h.items.length)) : Nat) : Int)
      = min 100 (round ((100 * ((doneFor s d h.id : Nat) : ℚ)) / ((h.items.length : ℚ))))
    rw [Nat.cast_min, jsRound_eq_round (doneFor s d h.id) h.items.length hlen]
    norm_num
  · exact min_le_left 100 _
  · intro hg
    have h0 : doneFor s d h.id = 0 := doneFor_of_none s d h.id hg
    refine ⟨h0, ?_⟩
    show min 100 ((200 * doneFor s d h.id + h.items.length) / (2 * h.items.length)) = 0
    rw [h0]
    have : (200 * 0 + h.items.length) / (2 * h.items.length) = 0 :=
      Nat.div_eq_of_lt (by omega)
    omega

/-- Witness for C3: the example store and the eating habit. -/
theorem progressForHabit_pct_spec_witness :
    eatingHabit ∈ HABITS ∧
      (∃ p, progressForHabit exampleStore 0 eatingHabit.id = some p ∧
        ((p.pct : Int) = min 100 (round ((100 * (p.done : ℚ)) / ((eatingHabit.items.length : ℚ))))) ∧
        p.pct ≤ 100 ∧
        (objGet exampleStore.byDate 0 = none → p.done = 0 ∧ p.pct = 0)) :=
  ⟨by decide, progressForHabit_pct_spec exampleStore 0 eatingHabit (by decide)⟩

/- ------------------------------------------------------------------
   Badge evaluator: C4.
   ------------------------------------------------------------------ -/

theorem mem_earnedBadges_iff (streak : Nat) (b : Badge) (hb : b ∈ BADGES) :
    b.id ∈ earnedBadges streak ↔ b.threshold ≤ streak := by
  have hnd : (BADGES.map (fun x => x.id)).Nodup := by decide
  constructor
  · intro hx
    rcases List.mem_map.mp hx with ⟨b2, hb2, hid⟩
    rcases List.mem_filter.mp hb2 with ⟨hb2B, hp⟩
    have hbb : b2 = b := List.inj_on_of_nodup_map hnd hb2B hb hid
    subst hbb
    simpa using hp
  · intro hle
    exact List.mem_map.mpr ⟨b, List.mem_filter.mpr ⟨hb, by simpa⟩, rfl⟩

/-- C4: a badge is earned exactly when the streak reaches its threshold; the
thresholds are exactly 3, 7, 14, 30; the earned set is monotone in the streak;
and a badge is never earned without every badge of lower-or-equal threshold
also earned. -/
theorem earnedBadges_spec (streak : Nat) :
    (∀ b ∈ BADGES, (b.id ∈ earnedBadges streak ↔ b.threshold ≤ streak)) ∧
    BADGES.map (fun b => b.threshold) = [3, 7, 14, 30] ∧
    (∀ t, streak ≤ t → ∀ x ∈ earnedBadges streak, x ∈ earnedBadges t) ∧
    (∀ b ∈ BADGES, ∀ b2 ∈ BADGES, b2.threshold ≤ b.threshold →
      b.id ∈ earnedBadges streak → b2.id ∈ earnedBadges streak) := by
  refine ⟨fun b hb => mem_earnedBadges_iff streak b hb, by decide, ?_, ?_⟩
  · intro t hst x hx
    rcases List.mem_map.mp hx with ⟨b2, hb2, hid⟩
    rcases List.mem_filter.mp hb2 with ⟨hb2B, hp⟩
    refine List.mem_map.mpr ⟨b2, List.mem_filter.mpr ⟨hb2B, ?_⟩, hid⟩
    have : b2.threshold ≤ streak := by simpa using hp
    simpa using le_trans this hst
  · intro b hb b2 hb2 hth hx
    exact (mem_earnedBadges_iff streak b2 hb2).mpr
      (le_trans hth ((mem_earnedBadges_iff streak b hb).mp hx))

/- ------------------------------------------------------------------
   Clear / reset: C9.
   ------------------------------------------------------------------ -/

/-- C9: clearing the selected date removes exactly that date's record (the
date maps to nothing afterwards, every other date is unchanged), and the reset
action empties the store when confirmed and leaves it untouched otherwise. -/
theorem clear_reset_spec (s : StoreShape) (d : Int) :
    objGet (clearDate s d).byDate d = none ∧
    (∀ d2, d2 ≠ d → objGet (clearDate s d).byDate d2 = objGet s.byDate d2) ∧
    resetAll s true = { byDate := [] } ∧
    resetAll s false = s := by
  refine ⟨objGet_filter_ne_self s.byDate d, ?_, rfl, rfl⟩
  intro d2 hne
  exact objGet_filter_ne_other s.byDate d d2 hne

/- ------------------------------------------------------------------
   Persistence loader: C8.
   ------------------------------------------------------------------ -/

/-- C8: for every possible local-storage content the loader never fails: a
throwing read, an absent or empty entry, an unparsable payload, and a parse
result without a truthy `byDate` field all yield the empty store, while a
well-formed persisted store (truthy `byDate`) is returned exactly as parsed. -/
theorem loadStore_spec (parse : String → Except Unit JsValue) :
    loadStore (Except.error ()) parse = emptyStoreJs ∧
    loadStore (Except.ok none) parse = emptyStoreJs ∧
    loadStore (Except.ok (some noStr)) parse = emptyStoreJs ∧
    (∀ r, parse r = Except.error () → loadStore (Except.ok (some r)) parse = emptyStoreJs) ∧
    (∀ r v, parse r = Except.ok v → truthy (jsGetField v byDateField) = false →
      loadStore (Except.ok (some r)) parse = emptyStoreJs) ∧
    (∀ r v, r ≠ noStr → parse r = Except.ok v → truthy (jsGetField v byDateField) = true →
      loadStore (Except.ok (some r)) parse = v) := by
  refine ⟨rfl, rfl, by simp [loadStore], ?_, ?_, ?_⟩
  · intro r hp
    by_cases hr : r = noStr
    · simp [loadStore, hr]
    · simp [loadStore, hr, hp]
  · intro r v hp ht
    by_cases hr : r = noStr
    · simp [loadStore, hr]
    · simp [loadStore, hr, hp, ht]
  · intro r v hr hp ht
    simp [loadStore, hr, hp, ht]

/- ------------------------------------------------------------------
   Streak calculator: C1 (value) and C5 (termination / totality).
   ------------------------------------------------------------------ -/

theorem streakFuel_succ (s : StoreShape) (f : Nat) (d : Int) :
    streakFuel s (f + 1) d =
      if overallGoalMet s d then streakFuel s f (d - 1) + 1 else 0 := rfl

theorem overallGoalMet_record (s : StoreShape) (d : Int) (hq : overallGoalMet s d = true) :
    ∃ r, objGet s.byDate d = some r ∧ ∃ kv ∈ r.checks, kv.2 = true := by
  have hs : smokingHabit ∈ HABITS := by decide
  have hq2 : HABITS.all (fun h => decide (h.dailyGoal ≤ doneFor s d h.id)) = true := hq
  have h1 : smokingHabit.dailyGoal ≤ doneFor s d smokingHabit.id :=
    of_decide_eq_true (List.all_eq_true.mp hq2 smokingHabit hs)
  have h1b : 1 ≤ doneFor s d smokingHabit.id := h1
  cases hg : objGet s.byDate d with
  | none =>
    rw [doneFor_of_none s d smokingHabit.id hg] at h1b
    omega
  | some r =>
    refine ⟨r, rfl, ?_⟩
    rw [doneFor_of_some s d smokingHabit.id r hg] at h1b
    have hne : r.checks.filter (fun kv => kv.2 && (firstComp kv.1 == smokingHabit.id)) ≠ [] := by
      intro h0
      rw [h0] at h1b
      simp at h1b
    obtain ⟨kv, hkv⟩ := List.exists_mem_of_ne_nil _ hne
    rcases List.mem_filter.mp hkv with ⟨hmem, hp⟩
    rw [Bool.and_eq_true] at hp
    exact ⟨kv, hmem, hp.1⟩

theorem overallGoalMet_mem_keys (s : StoreShape) (d : Int)
    (hq : overallGoalMet s d = true) : d ∈ s.byDate.map Prod.fst := by
  obtain ⟨r, hr, -⟩ := overallGoalMet_record s d hq
  exact objGet_mem_keys s.byDate d r hr

theorem streakFuel_run (s : StoreShape) :
    ∀ (f : Nat) (d : Int) (i : Nat), i < streakFuel s f d →
      overallGoalMet s (d - (i : Int)) = true := by
  intro f
  induction f with
  | zero =>
    intro d i h
    simp [streakFuel] at h
  | succ f ih =>
    intro d i h
    rw [streakFuel_succ] at h
    cases hq : overallGoalMet s d with
    | false => rw [hq] at h; simp at h
    | true =>
      rw [hq] at h
      simp only [if_true] at h
      cases i with
      | zero => simpa using hq
      | succ j =>
        have hj : j < streakFuel s f (d - 1) := by
          simp at h
          omega
        have hgoal := ih (d - 1) j hj
        have harith : d - 1 - (j : Int) = d - (((j + 1 : Nat)) : Int) := by
          push_cast
          ring
        rwa [harith] at hgoal

theorem streakFuel_stable (s : StoreShape) :
    ∀ (f : Nat) (d : Int), streakFuel s f d < f →
      ∀ g, f ≤ g → streakFuel s g d = streakFuel s f d := by
  intro f
  induction f with
  | zero =>
    intro d h
    omega
  | succ f ih =>
    intro d h g hg
    obtain ⟨g2, rfl⟩ : ∃ g2, g = g2 + 1 := ⟨g - 1, by omega⟩
    rw [streakFuel_succ] at h
    rw [streakFuel_succ, streakFuel_succ]
    cases hq : overallGoalMet s d with
    | false => simp
    | true =>
      rw [hq, if_pos rfl] at h
      rw [if_pos rfl, if_pos rfl]
      have hlt : streakFuel s f (d - 1) < f := by omega
      rw [ih (d - 1) hlt g2 (by omega)]

theorem streakFuel_stop (s : StoreShape) :
    ∀ (f : Nat) (d : Int), streakFuel s f d < f →
      overallGoalMet s (d - (streakFuel s f d : Int)) = false := by
  intro f
  induction f with
  | zero =>
    intro d h
    omega
  | succ f ih =>
    intro d h
    rw [streakFuel_succ] at h
    rw [streakFuel_succ]
    cases hq : overallGoalMet s d with
    | false =>
      simpa using hq
    | true =>
      rw [hq, if_pos rfl] at h
      rw [if_pos rfl]
      have hlt : streakFuel s f (d - 1) < f := by omega
      have hstop := ih (d - 1) hlt
      have harith : d - (((streakFuel s f (d - 1) + 1 : Nat)) : Int)
          = d - 1 - ((streakFuel s f (d - 1) : Nat) : Int) := by
        push_cast
        ring
      rwa [harith]

theorem streakFuel_le_records (s : StoreShape) (f : Nat) (d : Int) :
    streakFuel s f d ≤ s.byDate.length := by
  have hinj : Function.Injective (fun i : Nat => d - (i : Int)) := by
    intro a b hab
    have hab2 : d - (a : Int) = d - (b : Int) := hab
    omega
  have hnodup : (List.map (fun i : Nat => d - (i : Int)) (List.range (streakFuel s f d))).Nodup :=
    List.Nodup.map hinj (List.nodup_range (streakFuel s f d))
  have hsub : List.map (fun i : Nat => d - (i : Int)) (List.range (streakFuel s f d))
      ⊆ s.byDate.map Prod.fst := by
    intro x hx
    rcases List.mem_map.mp hx with ⟨i, hi, rfl⟩
    exact overallGoalMet_mem_keys s _ (streakFuel_run s f d i (List.mem_range.mp hi))
  have hle := (List.subperm_of_subset hnodup hsub).length_le
  simpa using hle

theorem overallStreak_lt (s : StoreShape) (d : Int) :
    streakFuel s (s.byDate.length + 1) d < s.byDate.length + 1 :=
  Nat.lt_succ_of_le (streakFuel_le_records s (s.byDate.length + 1) d)

theorem overallStreak_zero (s : StoreShape) (d : Int)
    (hq : overallGoalMet s d = false) : overallStreak s d = 0 := by
  unfold overallStreak
  rw [streakFuel_succ, hq]
  simp

theorem overallStreak_succ (s : StoreShape) (d : Int)
    (hq : overallGoalMet s d = true) :
    overallStreak s d = overallStreak s (d - 1) + 1 := by
  have hlt : streakFuel s s.byDate.length (d - 1) < s.byDate.length := by
    have h2 := overallStreak_lt s d
    rw [streakFuel_succ, hq] at h2
    simp only [if_true] at h2
    omega
  unfold overallStreak
  rw [streakFuel_succ, hq]
  simp only [if_true]
  rw [streakFuel_stable s s.byDate.length (d - 1) hlt (s.byDate.length + 1) (by omega)]

/-- C1: the streak value is the length of the maximal run of consecutive
qualifying calendar days walking backward from the reference date: every day
strictly inside the run qualifies, the day just past it does not, a
non-qualifying reference date gives streak 0, a qualifying one extends the
previous day's streak by one, and a qualifying day whose predecessor does not
qualify gives streak exactly 1 regardless of earlier history. -/
theorem overallStreak_spec (s : StoreShape) (d : Int) :
    (∀ i : Nat, i < overallStreak s d → overallGoalMet s (d - (i : Int)) = true) ∧
    overallGoalMet s (d - ((overallStreak s d : Nat) : Int)) = false ∧
    (overallGoalMet s d = false → overallStreak s d = 0) ∧
    (overallGoalMet s d = true → overallStreak s d = overallStreak s (d - 1) + 1) ∧
    (overallGoalMet s d = true → overallGoalMet s (d - 1) = false → overallStreak s d = 1) := by
  refine ⟨fun i hi => streakFuel_run s (s.byDate.length + 1) d i hi,
    streakFuel_stop s (s.byDate.length + 1) d (overallStreak_lt s d),
    overallStreak_zero s d,
    overallStreak_succ s d, ?_⟩
  intro h1 h2
  rw [overallStreak_succ s d h1, overallStreak_zero s (d - 1) h2]

/-- C5: the backward walk of the streak computation terminates on every finite
store: every catalog habit has `dailyGoal ≥ 1`, a qualifying day therefore
owns a record with at least one checked item, and any fuel beyond the number
of records computes the same (total) streak value. -/
theorem overallStreak_total_spec (s : StoreShape) (d : Int) :
    (∀ h ∈ HABITS, 1 ≤ h.dailyGoal) ∧
    (overallGoalMet s d = true →
      ∃ r, objGet s.byDate d = some r ∧ ∃ kv ∈ r.checks, kv.2 = true) ∧
    (∀ g, s.byDate.length + 1 ≤ g → streakFuel s g d = overallStreak s d) := by
  refine ⟨by decide, overallGoalMet_record s d, ?_⟩
  intro g hg
  exact streakFuel_stable s (s.byDate.length + 1) d (overallStreak_lt s d) g hg

/- ------------------------------------------------------------------
   Stale keys: C6.
   ------------------------------------------------------------------ -/

theorem objGet_removeNonHabitKeys (s : StoreShape) (d : Int) :
    objGet (removeNonHabitKeys s).byDate d
      = (objGet s.byDate d).map (fun r =>
          { date := r.date, checks := r.checks.filter (fun kv => hasCatalogHabitComp kv.1) }) := by
  unfold removeNonHabitKeys
  exact objGet_map_value s.byDate
    (fun r : DayRecord =>
      ({ date := r.date, checks := r.checks.filter (fun kv => hasCatalogHabitComp kv.1) } : DayRecord)) d

theorem doneFor_removeNonHabitKeys (s : StoreShape) (d : Int) (hid : String)
    (hhid : hid ∈ habitIds) :
    doneFor (removeNonHabitKeys s) d hid = doneFor s d hid := by
  cases hg : objGet s.byDate d with
  | none =>
    have hg2 : objGet (removeNonHabitKeys s).byDate d = none := by
      rw [objGet_removeNonHabitKeys, hg]
      rfl
    rw [doneFor_of_none _ _ _ hg2, doneFor_of_none _ _ _ hg]
  | some r =>
    have hg2 : objGet (removeNonHabitKeys s).byDate d
        = some { date := r.date, checks := r.checks.filter (fun kv => hasCatalogHabitComp kv.1) } := by
      rw [objGet_removeNonHabitKeys, hg]
      rfl
    rw [doneFor_of_some _ _ _ _ hg2, doneFor_of_some _ _ _ _ hg]
    show ((r.checks.filter (fun kv => hasCatalogHabitComp kv.1)).filter
        (fun kv => kv.2 && (firstComp kv.1 == hid))).length = _
    rw [List.filter_filter]
    congr 1
    apply List.filter_congr
    intro kv _
    by_cases hc : firstComp kv.1 = hid
    · have hcat : hasCatalogHabitComp kv.1 = true := by
        unfold hasCatalogHabitComp
        rw [hc]
        simpa using hhid
      simp [hcat]
    · simp [hc]

theorem overallGoalMet_removeNonHabitKeys (s : StoreShape) (d : Int) :
    overallGoalMet (removeNonHabitKeys s) d = overallGoalMet s d := by
  unfold overallGoalMet
  simp only [HABITS, List.all_cons, List.all_nil]
  rw [doneFor_removeNonHabitKeys s d smokingHabit.id (by decide),
      doneFor_removeNonHabitKeys s d eatingHabit.id (by decide),
      doneFor_removeNonHabitKeys s d exerciseHabit.id (by decide)]

theorem streakFuel_congr (s1 s2 : StoreShape)
    (h : ∀ d, overallGoalMet s1 d = overallGoalMet s2 d) :
    ∀ (f : Nat) (d : Int), streakFuel s1 f d = streakFuel s2 f d := by
  intro f
  induction f with
  | zero => intro d; rfl
  | succ f ih =>
    intro d
    rw [streakFuel_succ, streakFuel_succ, h d, ih (d - 1)]

theorem overallStreak_removeNonHabitKeys (s : StoreShape) (d : Int) :
    overallStreak (removeNonHabitKeys s) d = overallStreak s d := by
  unfold overallStreak
  have hlen : (removeNonHabitKeys s).byDate.length = s.byDate.length :=
    List.length_map s.byDate _
  rw [hlen]
  exact streakFuel_congr (removeNonHabitKeys s) s
    (fun d2 => overallGoalMet_removeNonHabitKeys s d2) (s.byDate.length + 1) d

/-- C6 counterexample: on a concrete store holding a single checked stale key,
the daily point total differs from the one computed on the same store with its
stale keys removed, refuting that all derived outputs ignore stale keys. -/
theorem stale_keys_counterexample :
    totalPointsToday staleStore 0 ≠ totalPointsToday (removeStaleKeys staleStore) 0 := by
  decide

/-- C6 amended: the outputs that consult only per-habit counts of catalog
habit ids — per-habit done, the whole per-habit progress record, the overall
goal test, and the streak — are unchanged when exactly the entries whose habit
component is not a catalog habit id are removed; the point total and the CSV
export, by the counterexample, reflect stale keys instead of ignoring them,
and a checked stale key whose habit component is a catalog habit id counts
toward that habit's done. -/
theorem stale_habit_keys_ignored (s : StoreShape) (d : Int) :
    (∀ h ∈ HABITS, doneFor (removeNonHabitKeys s) d h.id = doneFor s d h.id) ∧
    (∀ h ∈ HABITS, progressForHabit (removeNonHabitKeys s) d h.id = progressForHabit s d h.id) ∧
    overallGoalMet (removeNonHabitKeys s) d = overallGoalMet s d ∧
    overallStreak (removeNonHabitKeys s) d = overallStreak s d := by
  refine ⟨?_, ?_, overallGoalMet_removeNonHabitKeys s d, overallStreak_removeNonHabitKeys s d⟩
  · intro h hmem
    exact doneFor_removeNonHabitKeys s d h.id (List.mem_map.mpr ⟨h, hmem, rfl⟩)
  · intro h hmem
    rw [progressForHabit_eq (removeNonHabitKeys s) d h (find_habit_of_mem h hmem),
        progressForHabit_eq s d h (find_habit_of_mem h hmem),
        doneFor_removeNonHabitKeys s d h.id (List.mem_map.mpr ⟨h, hmem, rfl⟩)]

/- ------------------------------------------------------------------
   CSV export: C7.
   ------------------------------------------------------------------ -/

theorem hasKey_iff_mem (checks : List (String × Bool)) (k : String) :
    hasKey checks k = true ↔ k ∈ checks.map Prod.fst := by
  unfold hasKey
  simp [List.any_eq_true]

theorem hasKey_eq_decide_mem (checks : List (String × Bool)) (k : String) :
    hasKey checks k = decide (k ∈ checks.map Prod.fst) := by
  by_cases hmem : k ∈ checks.map Prod.fst
  · simp [hmem, (hasKey_iff_mem checks k).mpr hmem]
  · have hd : decide (k ∈ checks.map Prod.fst) = false := by simp [hmem]
    rw [hd]
    cases hcase : hasKey checks k
    · rfl
    · exact absurd ((hasKey_iff_mem checks k).mp hcase) hmem

theorem length_filterMap_if {α β : Type} (l : List α) (p : α → Bool) (g : α → β) :
    (l.filterMap (fun a => if p a then none else some (g a))).length
      = l.countP (fun a => !(p a)) := by
  induction l with
  | nil => rfl
  | cons a rest ih =>
    by_cases hp : p a = true
    · simp [List.filterMap_cons, hp, List.countP_cons, ih]
    · simp [List.filterMap_cons, hp, List.countP_cons, ih]

theorem countP_not_eq_sub {α : Type} (l : List α) (p : α → Bool) :
    l.countP (fun a => !(p a)) = l.length - l.countP p := by
  induction l with
  | nil => rfl
  | cons a rest ih =>
    have hle := List.countP_le_length p (l := rest)
    by_cases hp : p a = true
    · simp [List.countP_cons, hp, ih]
    · simp [List.countP_cons, hp, ih]
      omega

theorem countP_mem_of_nodup (ck ks : List String) (hck : ck.Nodup) (hks : ks.Nodup)
    (hsub : ∀ k ∈ ks, k ∈ ck) :
    ck.countP (fun k => decide (k ∈ ks)) = ks.length := by
  rw [List.countP_eq_length_filter]
  have hperm : (ck.filter (fun k => decide (k ∈ ks))).Perm ks := by
    refine (List.perm_ext_iff_of_nodup (List.Nodup.filter _ hck) hks).mpr ?_
    intro a
    simp only [List.mem_filter, decide_eq_true_iff]
    constructor
    · rintro ⟨-, ha⟩
      exact ha
    · intro ha
      exact ⟨hsub a ha, ha⟩
  exact hperm.length_eq

theorem length_flatMap_filterMap (hs : List Habit) (checks : List (String × Bool))
    (rowF : Habit → HabitItem → String) :
    (hs.flatMap (fun h => h.items.filterMap (fun it =>
        if hasKey checks (subKey h it) then none else some (rowF h it)))).length
      = (hs.flatMap (fun h => h.items.map (fun it => subKey h it))).countP
          (fun k => !(hasKey checks k)) := by
  induction hs with
  | nil => rfl
  | cons h rest ih =>
    simp only [List.flatMap_cons, List.length_append, List.countP_append, ih]
    congr 1
    rw [length_filterMap_if h.items (fun it => hasKey checks (subKey h it)) (rowF h)]
    rw [List.countP_map]
    rfl

theorem dayRows_length (day : DayRecord)
    (hnd : (day.checks.map Prod.fst).Nodup)
    (hsub : ∀ kv ∈ day.checks, kv.1 ∈ catalogKeys) :
    (dayRows day).length = 8 := by
  unfold dayRows
  rw [List.length_append, List.length_map]
  rw [length_flatMap_filterMap HABITS day.checks
    (fun h it => csvRowOf (dateStr day.date) h.id it.id zeroStr)]
  have hkeys : HABITS.flatMap (fun h => h.items.map (fun it => subKey h it)) = catalogKeys := rfl
  rw [hkeys]
  simp only [hasKey_eq_decide_mem day.checks]
  rw [countP_not_eq_sub catalogKeys (fun k => decide (k ∈ day.checks.map Prod.fst))]
  have hcount : catalogKeys.countP (fun k => decide (k ∈ day.checks.map Prod.fst))
      = (day.checks.map Prod.fst).length := by
    refine countP_mem_of_nodup catalogKeys (day.checks.map Prod.fst) (by decide) hnd ?_
    intro k hk
    rcases List.mem_map.mp hk with ⟨kv, hkv, rfl⟩
    exact hsub kv hkv
  have hlenCK : catalogKeys.length = 8 := by decide
  have hleCK := List.countP_le_length
    (fun k => decide (k ∈ day.checks.map Prod.fst)) (l := catalogKeys)
  rw [List.length_map] at hcount
  omega

theorem flatMap_dayRows_length : ∀ (byDate : List (Int × DayRecord)),
    (∀ e ∈ byDate, (e.2.checks.map Prod.fst).Nodup ∧ ∀ kv ∈ e.2.checks, kv.1 ∈ catalogKeys) →
    (byDate.flatMap (fun e => dayRows e.2)).length = byDate.length * 8 := by
  intro byDate
  induction byDate with
  | nil => intro _; rfl
  | cons e rest ih =>
    intro hvalid
    rw [List.flatMap_cons, List.length_append]
    rw [dayRows_length e.2 (hvalid e (by simp)).1 (hvalid e (by simp)).2]
    rw [ih (fun e2 he2 => hvalid e2 (by simp [he2]))]
    simp [List.length_cons]
    ring

/-- C7 counterexample: a one-date store holding a single stale key produces
`1 + 9` CSV lines (one stale row plus eight synthesized rows), not
`1 + dates * 8`, refuting the exact row count for arbitrary stores. -/
theorem csvRows_count_counterexample :
    (csvRows staleStore.byDate).length ≠ 1 + staleStore.byDate.length * 8 := by
  decide

/-- C7 amended: for every store whose records bind only catalog sub-habit keys
(each at most once, as a JavaScript object guarantees), the CSV export is
exactly one header line plus 8 data rows per recorded date — one per
(date, habitId, itemId, checked) tuple with checked in 0 or 1 — synthesizing a
checked=0 row for every catalog key absent from that date's mapping; stores
with stale keys emit extra rows (see the counterexample). -/
theorem csvRows_spec (byDate : List (Int × DayRecord))
    (hvalid : ∀ e ∈ byDate,
      (e.2.checks.map Prod.fst).Nodup ∧ ∀ kv ∈ e.2.checks, kv.1 ∈ catalogKeys) :
    (csvRows byDate).length = 1 + byDate.length * 8 ∧
    (csvRows byDate).headD noStr = csvHeader ∧
    (∀ row ∈ (csvRows byDate).drop 1, ∃ ds hbs its cs,
      row = csvRowOf ds hbs its cs ∧ (cs = zeroStr ∨ cs = oneStr)) := by
  refine ⟨?_, rfl, ?_⟩
  · show (csvHeader :: byDate.flatMap (fun e => dayRows e.2)).length = 1 + byDate.length * 8
    rw [List.length_cons, flatMap_dayRows_length byDate hvalid]
    omega
  · intro row hrow
    have hrow2 : row ∈ byDate.flatMap (fun e => dayRows e.2) := hrow
    rcases List.mem_flatMap.mp hrow2 with ⟨e, _, hre⟩
    unfold dayRows at hre
    rcases List.mem_append.mp hre with h1 | h2
    · rcases List.mem_map.mp h1 with ⟨kv, _, rfl⟩
      refine ⟨dateStr e.2.date, firstComp kv.1, secondComp kv.1, checkedStr kv.2, rfl, ?_⟩
      cases kv.2
      · exact Or.inl rfl
      · exact Or.inr rfl
    · rcases List.mem_flatMap.mp h2 with ⟨h, _, hit⟩
      rcases List.mem_filterMap.mp hit with ⟨it, _, hsome⟩
      by_cases hk : hasKey e.2.checks (subKey h it) = true
      · rw [if_pos hk] at hsome
        cases hsome
      · rw [if_neg hk] at hsome
        have hrow3 : csvRowOf (dateStr e.2.date) h.id it.id zeroStr = row :=
          Option.some_injective _ hsome
        exact ⟨dateStr e.2.date, h.id, it.id, zeroStr, hrow3.symm, Or.inl rfl⟩

/-- Witness for C7 (amended): the example store is catalog-only and its export
has exactly `1 + 1 * 8` lines. -/
theorem csvRows_spec_witness :
    (∀ e ∈ exampleStore.byDate,
      (e.2.checks.map Prod.fst).Nodup ∧ ∀ kv ∈ e.2.checks, kv.1 ∈ catalogKeys) ∧
    (csvRows exampleStore.byDate).length = 1 + exampleStore.byDate.length * 8 :=
  ⟨by decide, (csvRows_spec exampleStore.byDate (by decide)).1⟩
